import Mathlib

/-!
Verification development for the BetterPushback driving core.

The definitions below are a shallow embedding of `src/driving.c` (the
canonical path synthesizer `compute_segs` and path follower `drive_segs`
with its speed-planning and line-tracking helpers) and of the second
`compute_segs` found in the unnamed X-Plane plugin source file.  C doubles
are modelled as real numbers; the small 2-D vector/heading utility layer
(from the external libacfutils dependency, not part of this repository) is
modelled mathematically after its documented semantics.  Fallible geometry
(line/line intersection) returns `Option`.
-/

open Real

noncomputable section

open scoped Classical

/-- 2-D vector (libacfutils `vect2_t`): a pair of doubles. -/
structure Vect2 where
  x : ℝ
  y : ℝ
deriving DecidableEq

/-- `vect2_add`. -/
def vect2_add (a b : Vect2) : Vect2 := ⟨a.x + b.x, a.y + b.y⟩

/-- `vect2_sub`. -/
def vect2_sub (a b : Vect2) : Vect2 := ⟨a.x - b.x, a.y - b.y⟩

/-- `vect2_neg`. -/
def vect2_neg (a : Vect2) : Vect2 := ⟨-a.x, -a.y⟩

/-- `vect2_scmul(a, b)`: scalar multiply, C argument order. -/
def vect2_scmul (a : Vect2) (b : ℝ) : Vect2 := ⟨a.x * b, a.y * b⟩

/-- `vect2_dotprod`. -/
def vect2_dotprod (a b : Vect2) : ℝ := a.x * b.x + a.y * b.y

/-- `vect2_abs`: Euclidean norm. -/
def vect2_abs (a : Vect2) : ℝ := Real.sqrt (a.x ^ 2 + a.y ^ 2)

/-- `vect2_dist(a, b) = vect2_abs(vect2_sub(a, b))` (libacfutils). -/
def vect2_dist (a b : Vect2) : ℝ := vect2_abs (vect2_sub a b)

/-- `vect2_set_abs(a, len)`: rescale `a` to norm `len` (flips direction for
negative `len`); the zero vector is returned unchanged. -/
def vect2_set_abs (a : Vect2) (len : ℝ) : Vect2 :=
  if vect2_abs a ≠ 0 then vect2_scmul a (len / vect2_abs a) else ⟨0, 0⟩

/-- `vect2_norm(v, right)`: the perpendicular of `v`, to the right when
`right` is set, else to the left. -/
def vect2_norm (v : Vect2) (right : Bool) : Vect2 :=
  if right then ⟨v.y, -v.x⟩ else ⟨-v.y, v.x⟩

/-- `DEG2RAD`. -/
def deg2rad (d : ℝ) : ℝ := d * (Real.pi / 180)

/-- `RAD2DEG`. -/
def rad2deg (r : ℝ) : ℝ := r * (180 / Real.pi)

/-- `hdg2dir`: heading (degrees, 0 = +y axis, clockwise positive) to unit
direction vector. -/
def hdg2dir (hdg : ℝ) : Vect2 := ⟨Real.sin (deg2rad hdg), Real.cos (deg2rad hdg)⟩

/-- `dir2hdg`: direction vector to heading in degrees, modelled from
libacfutils via `arcsin` with a sign case split (its final two C branches
are textually identical and are merged here). -/
def dir2hdg (dir : Vect2) : ℝ :=
  if 0 ≤ dir.x ∧ 0 ≤ dir.y then rad2deg (Real.arcsin (dir.x / vect2_abs dir))
  else if dir.x < 0 ∧ 0 ≤ dir.y then 360 + rad2deg (Real.arcsin (dir.x / vect2_abs dir))
  else 180 - rad2deg (Real.arcsin (dir.x / vect2_abs dir))

/-- `normalize_hdg`: reduce a heading into [0, 360). -/
def normalize_hdg (hdg : ℝ) : ℝ := hdg - 360 * ⌊hdg / 360⌋

/-- `rel_hdg(a, b)`: signed shortest angular difference from heading `a` to
heading `b`. -/
def rel_hdg (a b : ℝ) : ℝ :=
  if |b - a| > 180 then (if b > a then b - (a + 360) else b + 360 - a)
  else b - a

/-- Modelled from libacfutils `vect2vect_isect`: intersection of the line
through `oa` along `a` with the line through `ob` along `b`.  Coincident
origins short-circuit to `oa`; parallel lines (zero determinant) yield
`none`; when `confined` is set the intersection must lie within the
coordinate bounding box of each of the two directed segments. -/
def vect2vect_isect (a oa b ob : Vect2) (confined : Bool) : Option Vect2 :=
  if oa = ob then some oa else
  let p1 := oa
  let p2 := vect2_add oa a
  let p3 := ob
  let p4 := vect2_add ob b
  let det := (p1.x - p2.x) * (p3.y - p4.y) - (p1.y - p2.y) * (p3.x - p4.x)
  if det = 0 then none else
  let ca := p1.x * p2.y - p1.y * p2.x
  let cb := p3.x * p4.y - p3.y * p4.x
  let r : Vect2 := ⟨(ca * (p3.x - p4.x) - cb * (p1.x - p2.x)) / det,
                    (ca * (p3.y - p4.y) - cb * (p1.y - p2.y)) / det⟩
  if confined then
    if r.x < min p1.x p2.x ∨ r.x > max p1.x p2.x ∨
       r.y < min p1.y p2.y ∨ r.y > max p1.y p2.y ∨
       r.x < min p3.x p4.x ∨ r.x > max p3.x p4.x ∨
       r.y < min p3.y p4.y ∨ r.y > max p3.y p4.y then none
    else some r
  else some r

/-- Modelled from libacfutils `quadratic_solve`: real roots of
`a·x² + b·x + c = 0` (discriminant `d = b² - 4ac`), degenerating to the
linear case when `a = 0`. -/
def quadratic_solve (a b c : ℝ) : List ℝ :=
  if a ≠ 0 then
    if b ^ 2 - 4 * a * c > 0 then
      [(-b + Real.sqrt (b ^ 2 - 4 * a * c)) / (2 * a),
       (-b - Real.sqrt (b ^ 2 - 4 * a * c)) / (2 * a)]
    else if b ^ 2 - 4 * a * c = 0 then [-b / (2 * a)]
    else []
  else if b ≠ 0 then [-c / b] else []

/-- Modelled from libacfutils `is_on_arc`: whether radial `angle_x` lies on
the arc from `angle1` to `angle2` going clockwise (`cw`) or
counterclockwise. -/
def is_on_arc (angle_x angle1 angle2 : ℝ) (cw : Bool) : Prop :=
  if cw then
    if angle1 < angle2 then angle1 ≤ angle_x ∧ angle_x ≤ angle2
    else angle1 ≤ angle_x ∨ angle_x ≤ angle2
  else
    if angle1 < angle2 then angle_x ≤ angle1 ∨ angle2 ≤ angle_x
    else angle_x ≤ angle1 ∧ angle2 ≤ angle_x

/-! ## Data model of `driving.h` / the plugin file -/

/-- `seg_type_t`. -/
inductive SegType where
  | straight
  | turn
deriving DecidableEq

/-- `seg_t`, with the C union flattened: a straight segment keeps its
length in `len` (its turn fields are the calloc zeros), a turn segment
keeps its radius in `turn_r` and direction in `turn_right` (its `len` is
the calloc zero). -/
structure Seg where
  type : SegType
  start_pos : Vect2
  start_hdg : ℝ
  end_pos : Vect2
  end_hdg : ℝ
  backward : Bool
  len : ℝ
  turn_r : ℝ
  turn_right : Bool
deriving DecidableEq

/-- `vehicle_t` (`driving.h`): the fields read by the driving core. -/
structure Vehicle where
  wheelbase : ℝ
  max_steer : ℝ

/-- `vehicle_pos_t`. -/
structure VehiclePos where
  pos : Vect2
  hdg : ℝ
  spd : ℝ

/-- `acf_t` of the plugin file: the fields read by its `compute_segs`. -/
structure Acf where
  wheelbase : ℝ
  max_nw_angle : ℝ

/-! ## Constants of `driving.c` -/

def NORMAL_SPEED : ℝ := 1.11
def FAST_SPEED : ℝ := 4
def CRAWL_SPEED : ℝ := 0.1
def NORMAL_ACCEL : ℝ := 0.25
def NORMAL_DECEL : ℝ := 0.17
def SEG_TURN_MULT : ℝ := 0.9
def MAX_ANG_VEL : ℝ := 3
def MIN_TURN_RADIUS : ℝ := 1.5
def MIN_STEERING_ARM_LEN : ℝ := 2
def MAX_OFF_PATH_ANGLE : ℝ := 35

/-- `STEER_GATE(x, g) = MIN(MAX(x, -g), g)`. -/
def steer_gate (x g : ℝ) : ℝ := min (max x (-g)) g

/-! ## Path synthesizer (`compute_segs`, driving.c lines 52-167)

The intermediate quantities of the turn branch are factored into named
helper definitions (with the exact expressions of the source) so that the
theorems can speak about them. -/

/-- `backward = (fabs(rhdg) > 90)` where
`rhdg = rel_hdg(start_hdg, dir2hdg(vect2_sub(end_pos, start_pos)))`. -/
def cs_rhdg (start_pos : Vect2) (start_hdg : ℝ) (end_pos : Vect2) : ℝ :=
  rel_hdg start_hdg (dir2hdg (vect2_sub end_pos start_pos))

def cs_backward (start_pos : Vect2) (start_hdg : ℝ) (end_pos : Vect2) : Bool :=
  if |cs_rhdg start_pos start_hdg end_pos| > 90 then true else false

/-- `s1_v`: a 1e10-long ray direction along (or, backing up, against) the
start heading. -/
def cs_s1v (start_pos : Vect2) (start_hdg : ℝ) (end_pos : Vect2) : Vect2 :=
  let v := vect2_set_abs (hdg2dir start_hdg) 1e10
  if cs_backward start_pos start_hdg end_pos then vect2_neg v else v

/-- `s2_v`: a 1e10-long ray direction against (or, backing up, along) the
end heading. -/
def cs_s2v (start_pos : Vect2) (start_hdg : ℝ) (end_pos : Vect2) (end_hdg : ℝ) : Vect2 :=
  let v := vect2_set_abs (hdg2dir end_hdg) 1e10
  if cs_backward start_pos start_hdg end_pos then v else vect2_neg v

/-- `turn_edge = vect2vect_isect(s1_v, start_pos, s2_v, end_pos, B_TRUE)`. -/
def cs_turn_edge (start_pos : Vect2) (start_hdg : ℝ) (end_pos : Vect2) (end_hdg : ℝ) :
    Option Vect2 :=
  vect2vect_isect (cs_s1v start_pos start_hdg end_pos) start_pos
    (cs_s2v start_pos start_hdg end_pos end_hdg) end_pos true

/-- `x = MIN(l1, l2)`, the common length clipped from both rays. -/
def cs_x (start_pos end_pos turn_edge : Vect2) : ℝ :=
  min (vect2_dist turn_edge start_pos) (vect2_dist turn_edge end_pos)

/-- `a = 180 - ABS(rel_hdg(start_hdg, end_hdg))` and `r = x * tan(a/2)`. -/
def cs_r (start_hdg end_hdg : ℝ) (start_pos end_pos turn_edge : Vect2) : ℝ :=
  cs_x start_pos end_pos turn_edge *
    Real.tan (deg2rad ((180 - |rel_hdg start_hdg end_hdg|) / 2))

/-- Minimum realizable radius of `driving.c`:
`MAX(tan(DEG2RAD(90 - max_steer * SEG_TURN_MULT)) * wheelbase, MIN_TURN_RADIUS)`. -/
def min_radius_veh (veh : Vehicle) : ℝ :=
  max (Real.tan (deg2rad (90 - veh.max_steer * SEG_TURN_MULT)) * veh.wheelbase)
    MIN_TURN_RADIUS

/-- Minimum radius of the plugin file's `compute_segs`:
`tan(DEG2RAD(max_nw_angle * SEG_TURN_MULT)) * wheelbase` (no 90° complement,
no absolute floor). -/
def min_radius_acf (acf : Acf) : ℝ :=
  Real.tan (deg2rad (acf.max_nw_angle * SEG_TURN_MULT)) * acf.wheelbase

/-- The single straight segment of the tiny-heading-change branch. -/
def cs_straight_seg (start_pos : Vect2) (start_hdg : ℝ) (end_pos : Vect2) (end_hdg : ℝ) :
    Seg :=
  let backward := cs_backward start_pos start_hdg end_pos
  let dir_v := hdg2dir (start_hdg + if backward then 180 else 0)
  let len := vect2_dotprod dir_v (vect2_sub end_pos start_pos)
  { type := .straight, start_pos := start_pos, start_hdg := start_hdg,
    end_pos := vect2_add (vect2_set_abs dir_v len) start_pos, end_hdg := end_hdg,
    backward := backward, len := len, turn_r := 0, turn_right := false }

/-- The two segments of the turn branch, in insertion order; `l1`/`l2` are
the already-clipped residual ray lengths. -/
def cs_turn_segs (start_pos : Vect2) (start_hdg : ℝ) (end_pos : Vect2) (end_hdg : ℝ)
    (l1 l2 r : ℝ) : List Seg :=
  let backward := cs_backward start_pos start_hdg end_pos
  let right := if cs_rhdg start_pos start_hdg end_pos ≥ 0 then true else false
  if l1 = 0 then
    let s2 : Seg :=
      { type := .straight,
        start_pos := vect2_add end_pos
          (vect2_set_abs (cs_s2v start_pos start_hdg end_pos end_hdg) l2),
        start_hdg := end_hdg, end_pos := end_pos, end_hdg := end_hdg,
        backward := backward, len := l2, turn_r := 0, turn_right := false }
    let s1 : Seg :=
      { type := .turn, start_pos := start_pos, start_hdg := start_hdg,
        end_pos := s2.start_pos, end_hdg := s2.start_hdg,
        backward := backward, len := 0, turn_r := r, turn_right := right }
    [s1, s2]
  else
    let s1 : Seg :=
      { type := .straight, start_pos := start_pos, start_hdg := start_hdg,
        end_pos := vect2_add start_pos
          (vect2_set_abs (cs_s1v start_pos start_hdg end_pos) l1),
        end_hdg := start_hdg,
        backward := backward, len := l1, turn_r := 0, turn_right := false }
    let s2 : Seg :=
      { type := .turn, start_pos := s1.end_pos, start_hdg := s1.end_hdg,
        end_pos := end_pos, end_hdg := end_hdg,
        backward := backward, len := 0, turn_r := r, turn_right := right }
    [s1, s2]

/-- `compute_segs` of `driving.c`: returns the C return value together with
the caller's segment list (segments are appended at the tail on success). -/
def compute_segs (veh : Vehicle) (start_pos : Vect2) (start_hdg : ℝ)
    (end_pos : Vect2) (end_hdg : ℝ) (segs : List Seg) : Int × List Seg :=
  if start_pos = end_pos then
    (if start_hdg = end_hdg then 0 else -1, segs)
  else if |start_hdg - end_hdg| < 1 then
    (1, segs ++ [cs_straight_seg start_pos start_hdg end_pos end_hdg])
  else
    match cs_turn_edge start_pos start_hdg end_pos end_hdg with
    | none => (-1, segs)
    | some turn_edge =>
      let l1 := vect2_dist turn_edge start_pos
      let l2 := vect2_dist turn_edge end_pos
      let x := min l1 l2
      let r := cs_r start_hdg end_hdg start_pos end_pos turn_edge
      if r < min_radius_veh veh then (-1, segs)
      else (2, segs ++ cs_turn_segs start_pos start_hdg end_pos end_hdg
        (l1 - x) (l2 - x) r)

/-- `compute_segs` of the plugin file: textually the same algorithm except
that its minimum-radius test uses `min_radius_acf` (and `l1`, `l2` are
written as `vect2_abs(vect2_sub(..))`, which is the definition of
`vect2_dist`). -/
def compute_segs_bp (acf : Acf) (start_pos : Vect2) (start_hdg : ℝ)
    (end_pos : Vect2) (end_hdg : ℝ) (segs : List Seg) : Int × List Seg :=
  if start_pos = end_pos then
    (if start_hdg = end_hdg then 0 else -1, segs)
  else if |start_hdg - end_hdg| < 1 then
    (1, segs ++ [cs_straight_seg start_pos start_hdg end_pos end_hdg])
  else
    match cs_turn_edge start_pos start_hdg end_pos end_hdg with
    | none => (-1, segs)
    | some turn_edge =>
      let l1 := vect2_abs (vect2_sub turn_edge start_pos)
      let l2 := vect2_abs (vect2_sub turn_edge end_pos)
      let x := min l1 l2
      let r := cs_r start_hdg end_hdg start_pos end_pos turn_edge
      if r < min_radius_acf acf then (-1, segs)
      else (2, segs ++ cs_turn_segs start_pos start_hdg end_pos end_hdg
        (l1 - x) (l2 - x) r)

/-! ## Speed planning (driving.c lines 260-367)

In the C source `next_seg_speed`, `turn_run_speed` and
`straight_run_speed` recurse along the remainder of the segment list via
`list_next`.  Here the non-recursive arithmetic of the two `*_run_speed`
bodies is factored into `straight_calc` / `turn_calc`, and the single
structural recursion on the remaining list is `next_seg_speed`. -/

/-- Body of `straight_run_speed` given the next segment's entry speed:
solve `0.5*NORMAL_DECEL*t^2 + next_spd*t - rmng_d = 0`, take the greater
root, cap at the direction's cruise speed; fall back to `next_spd` when
there is no real root. -/
def straight_calc (rmng_d next_spd : ℝ) (backward : Bool) : ℝ :=
  let cruise_spd := if backward then NORMAL_SPEED else FAST_SPEED
  match quadratic_solve (0.5 * NORMAL_DECEL) next_spd (-rmng_d) with
  | [t] => min (NORMAL_DECEL * t + next_spd) cruise_spd
  | [t1, t2] => min (NORMAL_DECEL * max t1 t2 + next_spd) cruise_spd
  | _ => next_spd

/-- Body of `turn_run_speed` given the straight-line speed over the arc
length: scale down so the angular velocity `rhdg / (rmng_d / spd)` does not
exceed `max_ang_vel`. -/
def turn_calc (rhdg radius max_ang_vel spd : ℝ) : ℝ :=
  let rmng_d := 2 * Real.pi * radius * (rhdg / 360)
  let rmng_t := rmng_d / spd
  let ang_vel := rhdg / rmng_t
  spd * min (max_ang_vel / ang_vel) 1

/-- `next_seg_speed`: target entry speed of the list of upcoming segments;
`CRAWL_SPEED` at the end of the operation or at a direction reversal. -/
def next_seg_speed : List Seg → Bool → ℝ → ℝ
  | [], _, _ => CRAWL_SPEED
  | next :: rest, cur_backward, max_ang_vel =>
    if next.backward = cur_backward then
      if next.type = .straight then
        straight_calc next.len (next_seg_speed rest next.backward max_ang_vel)
          next.backward
      else
        turn_calc (rel_hdg next.start_hdg next.end_hdg) next.turn_r max_ang_vel
          (straight_calc
            (2 * Real.pi * next.turn_r * (rel_hdg next.start_hdg next.end_hdg / 360))
            (next_seg_speed rest next.backward max_ang_vel) next.backward)
    else CRAWL_SPEED

/-- `straight_run_speed(segs, rmng_d, backward, max_ang_vel, next)`, with
`rest` the list of segments from `next` onwards. -/
def straight_run_speed (rmng_d : ℝ) (backward : Bool) (max_ang_vel : ℝ)
    (rest : List Seg) : ℝ :=
  straight_calc rmng_d (next_seg_speed rest backward max_ang_vel) backward

/-- `turn_run_speed(segs, rhdg, radius, backward, max_ang_vel, next)`. -/
def turn_run_speed (rhdg radius : ℝ) (backward : Bool) (max_ang_vel : ℝ)
    (rest : List Seg) : ℝ :=
  turn_calc rhdg radius max_ang_vel
    (straight_run_speed (2 * Real.pi * radius * (rhdg / 360)) backward max_ang_vel rest)

/-! ## Line-tracking controller (`drive_on_line`, driving.c lines 169-258) -/

/-- Result of `drive_on_line`: the two out-parameters and the persisted
previous heading-error sample. -/
structure DOLResult where
  steer : ℝ
  speed : ℝ
  last_mis_hdg : ℝ
deriving DecidableEq

/-- `drive_on_line`. -/
def drive_on_line (pos : VehiclePos) (veh : Vehicle) (line_start : Vect2)
    (line_hdg speed arm_len steer_corr_amp last_mis_hdg d_t : ℝ) : DOLResult :=
  let cur_hdg := if speed ≥ 0 then pos.hdg else normalize_hdg (pos.hdg + 180)
  if (speed < 0 ∧ pos.spd > 0) ∨ (speed > 0 ∧ pos.spd < 0) then
    { steer := 0, speed := speed, last_mis_hdg := last_mis_hdg }
  else
    let steering_arm := max arm_len MIN_STEERING_ARM_LEN
    let c := vect2_add pos.pos (vect2_scmul (hdg2dir cur_hdg) steering_arm)
    let dir_v := hdg2dir line_hdg
    let align_s := vect2_add line_start
      (vect2_scmul dir_v (vect2_dotprod (vect2_sub pos.pos line_start) dir_v))
    let s2c := vect2_sub c align_s
    let s2c_hdg := dir2hdg s2c
    let mis_hdg := rel_hdg s2c_hdg line_hdg
    let rhdg := rel_hdg cur_hdg line_hdg
    let d_mis_hdg := (mis_hdg - last_mis_hdg) / d_t
    let steer0 := steer_gate (mis_hdg + d_mis_hdg * steer_corr_amp) veh.max_steer
    let overcorrecting : Prop :=
      (mis_hdg < 0 ∧ rhdg > MAX_OFF_PATH_ANGLE) ∨
      (mis_hdg > 0 ∧ rhdg < -MAX_OFF_PATH_ANGLE)
    let steer1 :=
      if mis_hdg < 0 ∧ rhdg > MAX_OFF_PATH_ANGLE then
        steer_gate (rhdg - MAX_OFF_PATH_ANGLE) veh.max_steer
      else if mis_hdg > 0 ∧ rhdg < -MAX_OFF_PATH_ANGLE then
        steer_gate (rhdg + MAX_OFF_PATH_ANGLE) veh.max_steer
      else steer0
    let speed1 := if overcorrecting then max (min speed NORMAL_SPEED) (-NORMAL_SPEED)
      else speed
    let turn_radius := Real.tan (deg2rad (90 - |steer1|)) * veh.wheelbase
    let ang_vel := rad2deg (|speed1| / turn_radius)
    let speed2 := speed1 * min (MAX_ANG_VEL / ang_vel) 1
    let steer2 := if speed2 < 0 then -steer1 else steer1
    { steer := steer2 * steer_corr_amp, speed := speed2, last_mis_hdg := mis_hdg }

/-! ## Segment dispatch (`turn_run` and `drive_segs`, driving.c lines 368-457) -/

/-- `turn_run`. -/
def turn_run (pos : VehiclePos) (veh : Vehicle) (seg : Seg)
    (last_mis_hdg d_t speed : ℝ) : DOLResult :=
  let start_hdg := if !seg.backward then seg.start_hdg
    else normalize_hdg (seg.start_hdg + 180)
  let end_hdg := if !seg.backward then seg.end_hdg
    else normalize_hdg (seg.end_hdg + 180)
  let cw := (seg.turn_right && !seg.backward) || (!seg.turn_right && seg.backward)
  let c := vect2_add
    (vect2_set_abs (vect2_norm (hdg2dir start_hdg) seg.turn_right) seg.turn_r)
    seg.start_pos
  let c2r := vect2_set_abs (vect2_sub pos.pos c) seg.turn_r
  let cur_radial := dir2hdg c2r
  let r := vect2_add c c2r
  let dir_v := vect2_norm c2r cw
  let start_radial := normalize_hdg (start_hdg + if cw then -90 else 90)
  let end_radial := normalize_hdg (end_hdg + if cw then -90 else 90)
  let hdg :=
    if is_on_arc cur_radial start_radial end_radial cw then dir2hdg dir_v
    else if |rel_hdg cur_radial start_radial| < |rel_hdg cur_radial end_radial| then
      start_hdg
    else end_hdg
  let speed' := if !seg.backward then speed else -speed
  drive_on_line pos veh r hdg speed' (veh.wheelbase / 5) 2 last_mis_hdg d_t

/-- Result of one `drive_segs` tick: the C return value (`cont`), the
mutated segment list, the two out-parameters (`none` = left unwritten) and
the persisted heading-error sample. -/
structure DriveResult where
  cont : Bool
  segs : List Seg
  steer : Option ℝ
  speed : Option ℝ
  last_mis_hdg : ℝ

/-- `drive_segs`.  The C source asserts a non-empty list; the empty case is
modelled as an inert result. -/
def drive_segs (pos : VehiclePos) (veh : Vehicle) (segs : List Seg)
    (max_ang_vel last_mis_hdg d_t : ℝ) : DriveResult :=
  match segs with
  | [] => { cont := false, segs := [], steer := none, speed := none,
            last_mis_hdg := last_mis_hdg }
  | seg :: rest =>
    if seg.type = .straight then
      let len := vect2_dist pos.pos seg.start_pos
      let speed := straight_run_speed (seg.len - len) seg.backward max_ang_vel rest
      let hdg := if !seg.backward then seg.start_hdg
        else normalize_hdg (seg.start_hdg + 180)
      if len ≥ seg.len then
        { cont := false, segs := rest, steer := none, speed := none,
          last_mis_hdg := last_mis_hdg }
      else
        let speed' := if !seg.backward then speed else -speed
        let r := drive_on_line pos veh seg.start_pos hdg speed'
          (veh.wheelbase / 2) 1.5 last_mis_hdg d_t
        { cont := true, segs := seg :: rest, steer := some r.steer,
          speed := some r.speed, last_mis_hdg := r.last_mis_hdg }
    else
      let rhdg := |rel_hdg pos.hdg seg.end_hdg|
      let end_hdg := if !seg.backward then seg.end_hdg
        else normalize_hdg (seg.end_hdg + 180)
      let end_brg := |rel_hdg end_hdg (dir2hdg (vect2_sub pos.pos seg.end_pos))|
      let speed := turn_run_speed |rhdg| seg.turn_r seg.backward max_ang_vel rest
      if end_brg ≤ 90 then
        { cont := false, segs := rest, steer := none, speed := none,
          last_mis_hdg := last_mis_hdg }
      else
        let r := turn_run pos veh seg last_mis_hdg d_t speed
        { cont := true, segs := seg :: rest, steer := some r.steer,
          speed := some r.speed, last_mis_hdg := r.last_mis_hdg }

/-- The completion test `drive_segs` applies to the head segment: a
straight is complete when the distance from the segment start is at least
the segment length; a turn is complete when the bearing of the vehicle
from the turn's end position is within 90° of the direction-of-travel end
heading (the stored end heading, reversed by 180° for a backward
segment). -/
def seg_complete (pos : VehiclePos) (seg : Seg) : Prop :=
  if seg.type = .straight then vect2_dist pos.pos seg.start_pos ≥ seg.len
  else
    |rel_hdg (if !seg.backward then seg.end_hdg else normalize_hdg (seg.end_hdg + 180))
      (dir2hdg (vect2_sub pos.pos seg.end_pos))| ≤ 90

/-! ## General helper lemmas -/

lemma abs_steer_gate_le (x g : ℝ) (hg : 0 ≤ g) : |steer_gate x g| ≤ g := by
  rw [abs_le]
  constructor
  · exact le_min (le_max_right _ _) (by linarith)
  · exact min_le_right _ _

lemma vect2_abs_hdg2dir (h : ℝ) : vect2_abs (hdg2dir h) = 1 := by
  simp [vect2_abs, hdg2dir, Real.sin_sq_add_cos_sq]

lemma vect2_set_abs_unit (v : Vect2) (hv : vect2_abs v = 1) (len : ℝ) :
    vect2_set_abs v len = vect2_scmul v len := by
  simp [vect2_set_abs, hv]

lemma hdg2dir_add_180 (h : ℝ) : hdg2dir (h + 180) = vect2_neg (hdg2dir h) := by
  have : deg2rad (h + 180) = deg2rad h + Real.pi := by
    simp only [deg2rad]; ring
  simp [hdg2dir, vect2_neg, this, Real.sin_add_pi, Real.cos_add_pi]

lemma hdg2dir_zero : hdg2dir 0 = ⟨0, 1⟩ := by
  simp [hdg2dir, deg2rad]

lemma hdg2dir_90 : hdg2dir 90 = ⟨1, 0⟩ := by
  have : deg2rad 90 = Real.pi / 2 := by simp only [deg2rad]; ring
  simp [hdg2dir, this]

lemma dir2hdg_north (y : ℝ) (hy : 0 < y) : dir2hdg ⟨0, y⟩ = 0 := by
  simp [dir2hdg, rad2deg, hy.le]

/-- Closed form of `straight_calc`: with the fixed positive leading
coefficient, the governed speed is `min √(next_spd² + 2·decel·rmng_d)
cruise` when the discriminant is nonnegative, else the fallback
`next_spd`. -/
lemma straight_calc_eq (rmng_d next_spd : ℝ) (backward : Bool) :
    straight_calc rmng_d next_spd backward =
      if 0 ≤ next_spd ^ 2 + 2 * NORMAL_DECEL * rmng_d then
        min (Real.sqrt (next_spd ^ 2 + 2 * NORMAL_DECEL * rmng_d))
          (if backward then NORMAL_SPEED else FAST_SPEED)
      else next_spd := by
  have ha : (0.5 * NORMAL_DECEL : ℝ) ≠ 0 := by norm_num [NORMAL_DECEL]
  have hN : (NORMAL_DECEL : ℝ) = 0.17 := rfl
  simp only [straight_calc, quadratic_solve, if_pos ha]
  have hd : next_spd ^ 2 - 4 * (0.5 * NORMAL_DECEL) * (-rmng_d) =
      next_spd ^ 2 + 2 * NORMAL_DECEL * rmng_d := by ring
  rw [hd]
  set D := next_spd ^ 2 + 2 * NORMAL_DECEL * rmng_d with hD
  by_cases h1 : D > 0
  · rw [if_pos h1, if_pos (le_of_lt h1)]
    have hmax : max ((-next_spd + Real.sqrt D) / (2 * (0.5 * NORMAL_DECEL)))
        ((-next_spd - Real.sqrt D) / (2 * (0.5 * NORMAL_DECEL))) =
        (-next_spd + Real.sqrt D) / (2 * (0.5 * NORMAL_DECEL)) := by
      apply max_eq_left
      gcongr
      · norm_num [NORMAL_DECEL]
      · have := Real.sqrt_nonneg D
        linarith
    show min (NORMAL_DECEL * max ((-next_spd + Real.sqrt D) / (2 * (0.5 * NORMAL_DECEL)))
        ((-next_spd - Real.sqrt D) / (2 * (0.5 * NORMAL_DECEL))) + next_spd) _ = _
    rw [hmax]
    have hval : NORMAL_DECEL * ((-next_spd + Real.sqrt D) / (2 * (0.5 * NORMAL_DECEL))) +
        next_spd = Real.sqrt D := by
      rw [hN]
      field_simp
      ring
    rw [hval]
  · rw [if_neg h1]
    by_cases h2 : D = 0
    · rw [if_pos h2, if_pos (le_of_eq h2.symm)]
      show min (NORMAL_DECEL * (-next_spd / (2 * (0.5 * NORMAL_DECEL))) + next_spd) _ = _
      have hz : NORMAL_DECEL * (-next_spd / (2 * (0.5 * NORMAL_DECEL))) + next_spd = 0 := by
        rw [hN]
        field_simp
        ring
      rw [hz, h2, Real.sqrt_zero]
    · rw [if_neg h2, if_neg (not_le.mpr ((not_lt.mp h1).lt_of_ne h2))]

lemma straight_calc_90 : straight_calc 90 CRAWL_SPEED false = 4 := by
  rw [straight_calc_eq]
  rw [if_pos (by norm_num [CRAWL_SPEED, NORMAL_DECEL])]
  have h3061 : (CRAWL_SPEED ^ 2 + 2 * NORMAL_DECEL * 90 : ℝ) = 30.61 := by
    norm_num [CRAWL_SPEED, NORMAL_DECEL]
  rw [h3061]
  simp only [Bool.false_eq_true, if_false]
  have h4 : (FAST_SPEED : ℝ) ≤ Real.sqrt 30.61 := by
    have hs := Real.sqrt_le_sqrt (show (4 : ℝ) ^ 2 ≤ 30.61 by norm_num)
    rw [Real.sqrt_sq (by norm_num : (0 : ℝ) ≤ 4)] at hs
    exact hs
  rw [min_eq_right h4]
  rfl


/-! ## Concrete-evaluation helper lemmas (shared by witnesses and
counterexamples below) -/

lemma vect2_set_abs_hdg2dir (h len : ℝ) :
    vect2_set_abs (hdg2dir h) len = vect2_scmul (hdg2dir h) len :=
  vect2_set_abs_unit _ (vect2_abs_hdg2dir h) len

lemma vect2_set_abs_zero (v : Vect2) : vect2_set_abs v 0 = ⟨0, 0⟩ := by
  unfold vect2_set_abs vect2_scmul
  split_ifs <;> simp

lemma vect2_scmul_neg (v : Vect2) (k : ℝ) :
    vect2_scmul (vect2_neg v) k = vect2_scmul v (-k) := by
  simp only [vect2_scmul, vect2_neg, Vect2.mk.injEq]
  constructor <;> ring

lemma dir2hdg_ten_ten : dir2hdg ⟨10, 10⟩ = 45 := by
  have hπ : (0:ℝ) < Real.pi := Real.pi_pos
  have habs : vect2_abs ⟨10, 10⟩ = 10 * Real.sqrt 2 := by
    simp only [vect2_abs]
    rw [show (10:ℝ)^2 + 10^2 = (10*Real.sqrt 2)^2 by
      rw [mul_pow, Real.sq_sqrt (by norm_num : (0:ℝ) ≤ 2)]; norm_num]
    exact Real.sqrt_sq (by positivity)
  have harg : (10:ℝ) / (10 * Real.sqrt 2) = Real.sqrt 2 / 2 := by
    rw [div_eq_div_iff (by positivity) (by norm_num)]
    rw [show Real.sqrt 2 * (10 * Real.sqrt 2) = 10 * (Real.sqrt 2 * Real.sqrt 2) by ring,
      Real.mul_self_sqrt (by norm_num : (0:ℝ) ≤ 2)]
  dsimp only [dir2hdg]
  rw [if_pos (by norm_num)]
  rw [habs, harg, ← Real.sin_pi_div_four,
    Real.arcsin_sin (by linarith) (by linarith)]
  unfold rad2deg
  field_simp
  ring

lemma cs_backward_demo : cs_backward ⟨0,0⟩ 0 ⟨10,10⟩ = false := by
  unfold cs_backward cs_rhdg
  norm_num [vect2_sub, dir2hdg_ten_ten, rel_hdg]

lemma cs_rhdg_demo : cs_rhdg ⟨0,0⟩ 0 ⟨10,10⟩ = 45 := by
  unfold cs_rhdg
  norm_num [vect2_sub, dir2hdg_ten_ten, rel_hdg]

lemma cs_s1v_demo : cs_s1v ⟨0,0⟩ 0 ⟨10,10⟩ = ⟨0, 1e10⟩ := by
  unfold cs_s1v
  rw [cs_backward_demo, vect2_set_abs_hdg2dir, hdg2dir_zero]
  norm_num [vect2_scmul]

lemma cs_s2v_demo : cs_s2v ⟨0,0⟩ 0 ⟨10,10⟩ 90 = ⟨-1e10, 0⟩ := by
  unfold cs_s2v
  rw [cs_backward_demo, vect2_set_abs_hdg2dir, hdg2dir_90]
  norm_num [vect2_scmul, vect2_neg, Vect2.mk.injEq]

lemma cs_turn_edge_demo : cs_turn_edge ⟨0,0⟩ 0 ⟨10,10⟩ 90 = some ⟨0, 10⟩ := by
  unfold cs_turn_edge
  rw [cs_s1v_demo, cs_s2v_demo]
  unfold vect2vect_isect
  rw [if_neg (by norm_num [Vect2.mk.injEq])]
  norm_num [vect2_add, Vect2.mk.injEq]

lemma dist_te_sp : vect2_dist ⟨0,10⟩ ⟨0,0⟩ = 10 := by
  simp only [vect2_dist, vect2_sub, vect2_abs]
  rw [show ((0:ℝ)-0)^2 + (10-0)^2 = 10^2 by norm_num,
    Real.sqrt_sq (by norm_num : (0:ℝ) ≤ 10)]

lemma dist_te_ep : vect2_dist ⟨0,10⟩ ⟨10,10⟩ = 10 := by
  simp only [vect2_dist, vect2_sub, vect2_abs]
  rw [show ((0:ℝ)-10)^2 + (10-10)^2 = 10^2 by norm_num,
    Real.sqrt_sq (by norm_num : (0:ℝ) ≤ 10)]

lemma cs_r_demo : cs_r 0 90 ⟨0,0⟩ ⟨10,10⟩ ⟨0,10⟩ = 10 := by
  unfold cs_r cs_x
  rw [dist_te_sp, dist_te_ep]
  rw [show rel_hdg (0:ℝ) 90 = 90 by norm_num [rel_hdg]]
  rw [show deg2rad ((180 - |(90:ℝ)|) / 2) = Real.pi / 4 by
    rw [abs_of_nonneg (by norm_num : (0:ℝ) ≤ 90)]; unfold deg2rad; ring]
  rw [Real.tan_pi_div_four]
  norm_num

lemma mrv_le : min_radius_veh ⟨10, 60⟩ ≤ 10 := by
  unfold min_radius_veh MIN_TURN_RADIUS SEG_TURN_MULT
  have h36 : deg2rad ((90:ℝ) - 60 * 0.9) = Real.pi / 5 := by
    unfold deg2rad; ring
  rw [h36]
  have htan : Real.tan (Real.pi / 5) < 1 := by
    rw [← Real.tan_pi_div_four]
    apply Real.tan_lt_tan_of_nonneg_of_lt_pi_div_two
    · positivity
    · linarith [Real.pi_pos]
    · linarith [Real.pi_pos]
  have h0 : 0 ≤ Real.tan (Real.pi / 5) :=
    Real.tan_nonneg_of_nonneg_of_le_pi_div_two (by positivity) (by linarith [Real.pi_pos])
  apply max_le
  · nlinarith
  · norm_num

lemma mra_gt : 10 < min_radius_acf ⟨10, 60⟩ := by
  unfold min_radius_acf SEG_TURN_MULT
  have h54 : deg2rad ((60:ℝ) * 0.9) = 3 * Real.pi / 10 := by
    unfold deg2rad; ring
  rw [h54]
  have htan : 1 < Real.tan (3 * Real.pi / 10) := by
    rw [← Real.tan_pi_div_four]
    apply Real.tan_lt_tan_of_nonneg_of_lt_pi_div_two
    · positivity
    · linarith [Real.pi_pos]
    · linarith [Real.pi_pos]
  nlinarith

lemma cs_turn_segs_demo : cs_turn_segs ⟨0,0⟩ 0 ⟨10,10⟩ 90 0 0 10 =
    [⟨.turn, ⟨0,0⟩, 0, ⟨10,10⟩, 90, false, 0, 10, true⟩,
     ⟨.straight, ⟨10,10⟩, 90, ⟨10,10⟩, 90, false, 0, 0, false⟩] := by
  unfold cs_turn_segs
  rw [cs_backward_demo, cs_rhdg_demo, cs_s2v_demo]
  rw [if_pos (by norm_num : (45:ℝ) ≥ 0), if_pos rfl, vect2_set_abs_zero]
  norm_num [vect2_add]

lemma compute_segs_demo_eval : compute_segs ⟨10, 60⟩ ⟨0,0⟩ 0 ⟨10,10⟩ 90 [] =
    (2, [⟨.turn, ⟨0,0⟩, 0, ⟨10,10⟩, 90, false, 0, 10, true⟩,
         ⟨.straight, ⟨10,10⟩, 90, ⟨10,10⟩, 90, false, 0, 0, false⟩]) := by
  unfold compute_segs
  rw [if_neg (by norm_num [Vect2.mk.injEq] : ¬ (⟨0,0⟩:Vect2) = ⟨10,10⟩),
    if_neg (by norm_num : ¬ |(0:ℝ) - 90| < 1), cs_turn_edge_demo]
  dsimp only
  rw [dist_te_sp, dist_te_ep, cs_r_demo]
  rw [if_neg (not_lt.mpr mrv_le)]
  rw [show (10:ℝ) - min 10 10 = 0 by norm_num]
  rw [cs_turn_segs_demo]
  rfl

lemma compute_segs_bp_demo_eval :
    compute_segs_bp ⟨10, 60⟩ ⟨0,0⟩ 0 ⟨10,10⟩ 90 [] = (-1, []) := by
  unfold compute_segs_bp
  rw [if_neg (by norm_num [Vect2.mk.injEq] : ¬ (⟨0,0⟩:Vect2) = ⟨10,10⟩),
    if_neg (by norm_num : ¬ |(0:ℝ) - 90| < 1), cs_turn_edge_demo]
  dsimp only
  rw [cs_r_demo]
  rw [if_pos mra_gt]

/-! ## Theorems for the individual claims -/


/-- C6: `compute_segs` with coincident start and end positions returns 0
when the headings agree and the infeasible failure (-1) when they differ,
appending nothing in either case. -/
theorem c6_zero_motion (veh : Vehicle) (p : Vect2) (start_hdg end_hdg : ℝ)
    (segs : List Seg) :
    compute_segs veh p start_hdg p end_hdg segs =
      (if start_hdg = end_hdg then 0 else -1, segs) := by
  simp [compute_segs]

/-- C7: whenever `compute_segs` returns -1, the caller's segment list is
returned unchanged. -/
theorem c7_failure_no_mutation (veh : Vehicle) (start_pos : Vect2) (start_hdg : ℝ)
    (end_pos : Vect2) (end_hdg : ℝ) (segs : List Seg)
    (h : (compute_segs veh start_pos start_hdg end_pos end_hdg segs).1 = -1) :
    (compute_segs veh start_pos start_hdg end_pos end_hdg segs).2 = segs := by
  unfold compute_segs at h ⊢
  by_cases h1 : start_pos = end_pos
  · simp only [if_pos h1]
  · simp only [if_neg h1] at h ⊢
    by_cases h2 : |start_hdg - end_hdg| < 1
    · rw [if_pos h2] at h
      exact absurd h (by norm_num)
    · simp only [if_neg h2] at h ⊢
      rcases hte : cs_turn_edge start_pos start_hdg end_pos end_hdg with _ | te
      · simp only [hte]
      · simp only [hte] at h ⊢
        by_cases h4 : cs_r start_hdg end_hdg start_pos end_pos te < min_radius_veh veh
        · simp only [if_pos h4]
        · simp only [if_neg h4] at h
          exact absurd h (by norm_num)

/-- C2: the speed planned by `turn_run_speed` for a turn of positive
radius and nonzero heading change never yields an angular velocity
(speed/radius in degrees per second) above the `max_ang_vel` bound,
provided the recursive straight-line speed over the arc is positive. -/
theorem c2_turn_speed_ang_vel_bound (rest : List Seg) (rhdg radius : ℝ)
    (backward : Bool) (max_ang_vel : ℝ) (hr : 0 < radius) (hh : rhdg ≠ 0)
    (hs : 0 < straight_run_speed (2 * Real.pi * radius * (rhdg / 360))
      backward max_ang_vel rest) :
    rad2deg (turn_run_speed rhdg radius backward max_ang_vel rest / radius) ≤
      max_ang_vel := by
  have hπ : (0 : ℝ) < Real.pi := Real.pi_pos
  simp only [turn_run_speed, turn_calc]
  set spd := straight_run_speed (2 * Real.pi * radius * (rhdg / 360))
    backward max_ang_vel rest with hspd
  have hang : rhdg / (2 * Real.pi * radius * (rhdg / 360) / spd) =
      180 * spd / (Real.pi * radius) := by
    field_simp
    ring
  rw [hang]
  set A := 180 * spd / (Real.pi * radius) with hA
  have hApos : 0 < A := by
    have h180 : (0 : ℝ) < 180 * spd := by linarith
    exact div_pos h180 (mul_pos hπ hr)
  have key : rad2deg (spd * min (max_ang_vel / A) 1 / radius) =
      A * min (max_ang_vel / A) 1 := by
    rw [hA]
    unfold rad2deg
    field_simp
    ring
  rw [key]
  rcases le_total (max_ang_vel / A) 1 with hm | hm
  · rw [min_eq_left hm, mul_comm, div_mul_cancel₀ _ (ne_of_gt hApos)]
  · rw [min_eq_right hm, mul_one]
    exact (one_le_div hApos).mp hm

/-- C2 witness: a quarter turn of radius 180/π with no following segments
at the 3°/s bound. -/
theorem c2_turn_speed_ang_vel_bound_witness :
    0 < (180 / Real.pi : ℝ) ∧ (90 : ℝ) ≠ 0 ∧
    0 < straight_run_speed (2 * Real.pi * (180 / Real.pi) * (90 / 360)) false 3 [] ∧
    rad2deg (turn_run_speed 90 (180 / Real.pi) false 3 [] / (180 / Real.pi)) ≤ 3 := by
  have hπ : (0 : ℝ) < Real.pi := Real.pi_pos
  have h1 : (0 : ℝ) < 180 / Real.pi := by positivity
  have h2 : (90 : ℝ) ≠ 0 := by norm_num
  have harc : 2 * Real.pi * (180 / Real.pi) * ((90 : ℝ) / 360) = 90 := by
    field_simp
    ring
  have h3 : 0 < straight_run_speed (2 * Real.pi * (180 / Real.pi) * (90 / 360))
      false 3 [] := by
    rw [harc]
    simp only [straight_run_speed, next_seg_speed]
    rw [straight_calc_90]
    norm_num
  exact ⟨h1, h2, h3, c2_turn_speed_ang_vel_bound [] 90 (180 / Real.pi) false 3 h1 h2 h3⟩

/-- C1 (amended): in every branch of `drive_on_line` the internally gated
steering value stays within `max_steer`, and the written `steer_out` is
that value scaled by the correction gain, so its magnitude is bounded by
`max_steer * |steer_corr_amp|` (not by `max_steer` itself). -/
theorem c1_steer_bounded_by_gain (pos : VehiclePos) (veh : Vehicle)
    (line_start : Vect2) (line_hdg speed arm_len steer_corr_amp last_mis_hdg d_t : ℝ)
    (h : 0 ≤ veh.max_steer) :
    |(drive_on_line pos veh line_start line_hdg speed arm_len steer_corr_amp
        last_mis_hdg d_t).steer| ≤ veh.max_steer * |steer_corr_amp| := by
  have hnn : 0 ≤ veh.max_steer * |steer_corr_amp| := mul_nonneg h (abs_nonneg _)
  simp only [drive_on_line]
  split_ifs
  all_goals dsimp only
  all_goals
    first
    | simpa using hnn
    | (rw [abs_mul, abs_neg]
       exact mul_le_mul_of_nonneg_right (abs_steer_gate_le _ _ h) (abs_nonneg _))
    | (rw [abs_mul]
       exact mul_le_mul_of_nonneg_right (abs_steer_gate_le _ _ h) (abs_nonneg _))


/-- C1 counterexample: with the drive_segs turn-tracking correction gain 2,
a vehicle at the origin tracking the 90°-heading line through the origin
saturates the steering gate at `max_steer = 10°`, and the value written to
`steer_out` is the gated value times the gain — 20°, exceeding
`max_steer`. -/
theorem c1_cex_steer_exceeds_max :
    (Vehicle.mk 5 10).max_steer <
      |(drive_on_line ⟨⟨0, 0⟩, 0, 1⟩ (Vehicle.mk 5 10) ⟨0, 0⟩ 90 1 2 2 90 1).steer| := by
  simp only [drive_on_line]
  norm_num [vect2_add, vect2_scmul, vect2_sub, vect2_dotprod, steer_gate, rel_hdg,
    MIN_STEERING_ARM_LEN, MAX_OFF_PATH_ANGLE, dir2hdg_north, hdg2dir_zero, hdg2dir_90]
  split_ifs <;> norm_num

/-- C1 witness: the amended bound instantiated at the counterexample's
input (gain 2). -/
theorem c1_steer_bounded_by_gain_witness :
    0 ≤ (Vehicle.mk 5 10).max_steer ∧
    |(drive_on_line ⟨⟨0, 0⟩, 0, 1⟩ (Vehicle.mk 5 10) ⟨0, 0⟩ 90 1 2 2 90 1).steer| ≤
      (Vehicle.mk 5 10).max_steer * |(2 : ℝ)| :=
  ⟨by norm_num,
   c1_steer_bounded_by_gain ⟨⟨0, 0⟩, 0, 1⟩ (Vehicle.mk 5 10) ⟨0, 0⟩ 90 1 2 2 90 1
     (by norm_num)⟩

/-- C3: for distinct positions with headings less than 1° apart,
`compute_segs` returns 1 and appends exactly one straight segment whose
length is the dot product of the displacement with the (possibly reversed)
start-heading direction and whose end position is the start position plus
that projection — in particular it lies on the ray along the start heading
or its reverse. -/
theorem c3_degenerate_straight (veh : Vehicle) (sp : Vect2) (sh : ℝ) (ep : Vect2)
    (eh : ℝ) (segs : List Seg) (h1 : sp ≠ ep) (h2 : |sh - eh| < 1) :
    compute_segs veh sp sh ep eh segs = (1, segs ++ [cs_straight_seg sp sh ep eh]) ∧
    (cs_straight_seg sp sh ep eh).len =
      vect2_dotprod (hdg2dir (sh + if cs_backward sp sh ep then 180 else 0))
        (vect2_sub ep sp) ∧
    (cs_straight_seg sp sh ep eh).end_pos =
      vect2_add (vect2_scmul (hdg2dir (sh + if cs_backward sp sh ep then 180 else 0))
        (cs_straight_seg sp sh ep eh).len) sp ∧
    ∃ t : ℝ, (cs_straight_seg sp sh ep eh).end_pos =
      vect2_add (vect2_scmul (hdg2dir sh) t) sp := by
  refine ⟨?_, rfl, ?_, ?_⟩
  · unfold compute_segs
    rw [if_neg h1, if_pos h2]
  · show vect2_add (vect2_set_abs _ _) sp = _
    rw [vect2_set_abs_hdg2dir]
    rfl
  · by_cases hb : cs_backward sp sh ep
    · refine ⟨-(cs_straight_seg sp sh ep eh).len, ?_⟩
      simp only [cs_straight_seg, hb, if_true]
      rw [vect2_set_abs_hdg2dir, hdg2dir_add_180, vect2_scmul_neg]
    · rw [Bool.not_eq_true] at hb
      refine ⟨(cs_straight_seg sp sh ep eh).len, ?_⟩
      simp only [cs_straight_seg, hb, Bool.false_eq_true, if_false, add_zero]
      rw [vect2_set_abs_hdg2dir]

/-- C3 witness: a 0.5° heading change over a 5 m displacement. -/
theorem c3_degenerate_straight_witness :
    ((⟨0, 0⟩ : Vect2) ≠ ⟨0, 5⟩) ∧ |(0 : ℝ) - 0.5| < 1 ∧
    (compute_segs ⟨1, 1⟩ ⟨0, 0⟩ 0 ⟨0, 5⟩ 0.5 [] =
        (1, [] ++ [cs_straight_seg ⟨0, 0⟩ 0 ⟨0, 5⟩ 0.5]) ∧
      (cs_straight_seg ⟨0, 0⟩ 0 ⟨0, 5⟩ 0.5).len =
        vect2_dotprod (hdg2dir (0 + if cs_backward ⟨0, 0⟩ 0 ⟨0, 5⟩ then 180 else 0))
          (vect2_sub ⟨0, 5⟩ ⟨0, 0⟩) ∧
      (cs_straight_seg ⟨0, 0⟩ 0 ⟨0, 5⟩ 0.5).end_pos =
        vect2_add (vect2_scmul (hdg2dir (0 + if cs_backward ⟨0, 0⟩ 0 ⟨0, 5⟩ then 180 else 0))
          (cs_straight_seg ⟨0, 0⟩ 0 ⟨0, 5⟩ 0.5).len) ⟨0, 0⟩ ∧
      ∃ t : ℝ, (cs_straight_seg ⟨0, 0⟩ 0 ⟨0, 5⟩ 0.5).end_pos =
        vect2_add (vect2_scmul (hdg2dir 0) t) ⟨0, 0⟩) :=
  ⟨by norm_num [Vect2.mk.injEq], by rw [abs_lt]; norm_num,
   c3_degenerate_straight ⟨1, 1⟩ ⟨0, 0⟩ 0 ⟨0, 5⟩ 0.5 []
     (by norm_num [Vect2.mk.injEq]) (by rw [abs_lt]; norm_num)⟩

/-- C4: `compute_segs` uses the minimum radius
`max(tan(90° - max_steer·0.9)·wheelbase, 1.5)`; in the turn branch it fails
with -1 exactly when the required radius `r = x·tan(a/2)`
(`a = 180° - |rel_hdg|`) is below that minimum, and any emitted turn
segment carries radius `r ≥` the minimum. -/
theorem c4_radius_floor (veh : Vehicle) (sp : Vect2) (sh : ℝ) (ep : Vect2) (eh : ℝ)
    (segs : List Seg) (te : Vect2) (h1 : sp ≠ ep) (h2 : ¬ |sh - eh| < 1)
    (h3 : cs_turn_edge sp sh ep eh = some te) :
    (cs_r sh eh sp ep te < min_radius_veh veh →
      compute_segs veh sp sh ep eh segs = (-1, segs)) ∧
    (min_radius_veh veh ≤ cs_r sh eh sp ep te →
      ∀ s ∈ (compute_segs veh sp sh ep eh segs).2.drop segs.length,
        s.type = SegType.turn →
          s.turn_r = cs_r sh eh sp ep te ∧ min_radius_veh veh ≤ s.turn_r) := by
  unfold compute_segs
  rw [if_neg h1, if_neg h2, h3]
  dsimp only
  constructor
  · intro hlt
    rw [if_pos hlt]
  · intro hge
    rw [if_neg (not_lt.mpr hge)]
    dsimp only
    rw [List.drop_left]
    intro s hs hst
    unfold cs_turn_segs at hs
    by_cases hl : vect2_dist te sp - min (vect2_dist te sp) (vect2_dist te ep) = 0
    · rw [if_pos hl] at hs
      simp only [List.mem_cons, List.not_mem_nil, or_false] at hs
      rcases hs with rfl | rfl
      · exact ⟨rfl, hge⟩
      · simp at hst
    · rw [if_neg hl] at hs
      simp only [List.mem_cons, List.not_mem_nil, or_false] at hs
      rcases hs with rfl | rfl
      · simp at hst
      · exact ⟨rfl, hge⟩

/-- C4 witness: the 90°-turn request from (0,0)/0° to (10,10)/90° for a
10 m-wheelbase, 60°-max-steer vehicle (required radius 10 m, minimum
radius ≈ 7.27 m). -/
theorem c4_radius_floor_witness :
    ((⟨0, 0⟩ : Vect2) ≠ ⟨10, 10⟩) ∧ (¬ |(0 : ℝ) - 90| < 1) ∧
    cs_turn_edge ⟨0, 0⟩ 0 ⟨10, 10⟩ 90 = some ⟨0, 10⟩ ∧
    ((cs_r 0 90 ⟨0, 0⟩ ⟨10, 10⟩ ⟨0, 10⟩ < min_radius_veh ⟨10, 60⟩ →
        compute_segs ⟨10, 60⟩ ⟨0, 0⟩ 0 ⟨10, 10⟩ 90 [] = (-1, [])) ∧
      (min_radius_veh ⟨10, 60⟩ ≤ cs_r 0 90 ⟨0, 0⟩ ⟨10, 10⟩ ⟨0, 10⟩ →
        ∀ s ∈ (compute_segs ⟨10, 60⟩ ⟨0, 0⟩ 0 ⟨10, 10⟩ 90 []).2.drop
            ([] : List Seg).length,
          s.type = SegType.turn →
            s.turn_r = cs_r 0 90 ⟨0, 0⟩ ⟨10, 10⟩ ⟨0, 10⟩ ∧
            min_radius_veh ⟨10, 60⟩ ≤ s.turn_r)) :=
  ⟨by norm_num [Vect2.mk.injEq], by norm_num, cs_turn_edge_demo,
   c4_radius_floor ⟨10, 60⟩ ⟨0, 0⟩ 0 ⟨10, 10⟩ 90 [] ⟨0, 10⟩
     (by norm_num [Vect2.mk.injEq]) (by norm_num) cs_turn_edge_demo⟩

/-- C5: every successful 2-segment output of `compute_segs` is continuous:
the first appended segment's end pose equals the second's start pose, in
both the turn-then-straight and straight-then-turn orderings. -/
theorem c5_two_seg_continuity (veh : Vehicle) (sp : Vect2) (sh : ℝ) (ep : Vect2)
    (eh : ℝ) (segs : List Seg) (a b : Seg)
    (h : (compute_segs veh sp sh ep eh segs).2 = segs ++ [a, b]) :
    a.end_pos = b.start_pos ∧ a.end_hdg = b.start_hdg := by
  unfold compute_segs at h
  by_cases h1 : sp = ep
  · rw [if_pos h1] at h
    dsimp only at h
    have hl := congrArg List.length h
    simp at hl
  · rw [if_neg h1] at h
    by_cases h2 : |sh - eh| < 1
    · rw [if_pos h2] at h
      dsimp only at h
      have hl := congrArg List.length h
      simp at hl
    · rw [if_neg h2] at h
      rcases hte : cs_turn_edge sp sh ep eh with _ | te
      · rw [hte] at h
        dsimp only at h
        have hl := congrArg List.length h
        simp at hl
      · rw [hte] at h
        dsimp only at h
        split_ifs at h with h4
        · have hl := congrArg List.length h
          simp at hl
        · dsimp only at h
          have h5 := List.append_cancel_left h
          unfold cs_turn_segs at h5
          by_cases h6 : vect2_dist te sp - min (vect2_dist te sp) (vect2_dist te ep) = 0
          · rw [if_pos h6] at h5
            dsimp only at h5
            simp only [List.cons.injEq, and_true] at h5
            obtain ⟨ha, hb⟩ := h5
            rw [← ha, ← hb]
            exact ⟨rfl, rfl⟩
          · rw [if_neg h6] at h5
            dsimp only at h5
            simp only [List.cons.injEq, and_true] at h5
            obtain ⟨ha, hb⟩ := h5
            rw [← ha, ← hb]
            exact ⟨rfl, rfl⟩

/-- C5 witness: the concrete 2-segment output of the 90°-turn request. -/
theorem c5_two_seg_continuity_witness :
    (compute_segs ⟨10, 60⟩ ⟨0, 0⟩ 0 ⟨10, 10⟩ 90 []).2 =
      [] ++ [⟨.turn, ⟨0, 0⟩, 0, ⟨10, 10⟩, 90, false, 0, 10, true⟩,
             ⟨.straight, ⟨10, 10⟩, 90, ⟨10, 10⟩, 90, false, 0, 0, false⟩] ∧
    (Seg.mk .turn ⟨0, 0⟩ 0 ⟨10, 10⟩ 90 false 0 10 true).end_pos =
      (Seg.mk .straight ⟨10, 10⟩ 90 ⟨10, 10⟩ 90 false 0 0 false).start_pos ∧
    (Seg.mk .turn ⟨0, 0⟩ 0 ⟨10, 10⟩ 90 false 0 10 true).end_hdg =
      (Seg.mk .straight ⟨10, 10⟩ 90 ⟨10, 10⟩ 90 false 0 0 false).start_hdg := by
  have hl : (compute_segs ⟨10, 60⟩ ⟨0, 0⟩ 0 ⟨10, 10⟩ 90 []).2 =
      [] ++ [⟨.turn, ⟨0, 0⟩, 0, ⟨10, 10⟩, 90, false, 0, 10, true⟩,
             ⟨.straight, ⟨10, 10⟩, 90, ⟨10, 10⟩, 90, false, 0, 0, false⟩] := by
    rw [compute_segs_demo_eval]
    rfl
  exact ⟨hl, c5_two_seg_continuity ⟨10, 60⟩ ⟨0, 0⟩ 0 ⟨10, 10⟩ 90 [] _ _ hl⟩

/-- C10 counterexample: with identified fields (wheelbase 10, maximum
steering/nosewheel angle 60°) and the same request, `driving.c`'s
`compute_segs` succeeds with 2 segments while the plugin file's
`compute_segs` fails with -1: their minimum-radius formulas differ
(`tan(90° - 54°)·10 ≈ 7.27` vs `tan(54°)·10 ≈ 13.76` against the required
radius 10). -/
theorem c10_cex_disagreement :
    (compute_segs ⟨10, 60⟩ ⟨0, 0⟩ 0 ⟨10, 10⟩ 90 []).1 = 2 ∧
    (compute_segs_bp ⟨10, 60⟩ ⟨0, 0⟩ 0 ⟨10, 10⟩ 90 []).1 = -1 := by
  rw [compute_segs_demo_eval, compute_segs_bp_demo_eval]
  exact ⟨rfl, rfl⟩

/-- C10 (amended): the two `compute_segs` implementations are identical on
every input on which their differing minimum-radius tests agree (in
particular whenever no turn geometry is reached); they differ only in the
radius floor: `max(tan(90° - 0.9·max_steer)·wheelbase, 1.5)` versus
`tan(0.9·max_nw_angle)·wheelbase`. -/
theorem c10_compute_segs_agree (veh : Vehicle) (acf : Acf) (sp : Vect2) (sh : ℝ)
    (ep : Vect2) (eh : ℝ) (segs : List Seg)
    (h : ∀ te, cs_turn_edge sp sh ep eh = some te →
      (cs_r sh eh sp ep te < min_radius_veh veh ↔
       cs_r sh eh sp ep te < min_radius_acf acf)) :
    compute_segs veh sp sh ep eh segs = compute_segs_bp acf sp sh ep eh segs := by
  unfold compute_segs compute_segs_bp
  by_cases h1 : sp = ep
  · rw [if_pos h1, if_pos h1]
  · rw [if_neg h1, if_neg h1]
    by_cases h2 : |sh - eh| < 1
    · rw [if_pos h2, if_pos h2]
    · rw [if_neg h2, if_neg h2]
      rcases hte : cs_turn_edge sp sh ep eh with _ | te
      · rfl
      · dsimp only
        by_cases h4 : cs_r sh eh sp ep te < min_radius_veh veh
        · rw [if_pos h4, if_pos ((h te hte).mp h4)]
        · rw [if_neg h4, if_neg (fun hc => h4 ((h te hte).mpr hc))]
          simp only [vect2_dist]

/-- C10 witness: a no-motion request, on which both radius tests are
trivially on the same side (0 below both minima). -/
theorem c10_compute_segs_agree_witness :
    (∀ te, cs_turn_edge ⟨0, 0⟩ 0 ⟨0, 0⟩ 0 = some te →
      (cs_r 0 0 ⟨0, 0⟩ ⟨0, 0⟩ te < min_radius_veh ⟨1, 100⟩ ↔
       cs_r 0 0 ⟨0, 0⟩ ⟨0, 0⟩ te < min_radius_acf ⟨1, 50⟩)) ∧
    compute_segs ⟨1, 100⟩ ⟨0, 0⟩ 0 ⟨0, 0⟩ 0 [] =
      compute_segs_bp ⟨1, 50⟩ ⟨0, 0⟩ 0 ⟨0, 0⟩ 0 [] := by
  have hkey : ∀ te, cs_turn_edge ⟨0, 0⟩ 0 ⟨0, 0⟩ 0 = some te →
      (cs_r 0 0 ⟨0, 0⟩ ⟨0, 0⟩ te < min_radius_veh ⟨1, 100⟩ ↔
       cs_r 0 0 ⟨0, 0⟩ ⟨0, 0⟩ te < min_radius_acf ⟨1, 50⟩) := by
    intro te hte
    have hte0 : te = ⟨0, 0⟩ := by
      unfold cs_turn_edge vect2vect_isect at hte
      rw [if_pos rfl] at hte
      exact (Option.some.inj hte).symm
    subst hte0
    have hr : cs_r 0 0 ⟨0, 0⟩ ⟨0, 0⟩ ⟨0, 0⟩ = 0 := by
      unfold cs_r cs_x vect2_dist vect2_sub vect2_abs
      norm_num
    rw [hr]
    constructor <;> intro h'
    · unfold min_radius_acf SEG_TURN_MULT
      rw [show deg2rad ((50 : ℝ) * 0.9) = Real.pi / 4 by unfold deg2rad; ring,
        Real.tan_pi_div_four]
      norm_num
    · unfold min_radius_veh MIN_TURN_RADIUS
      exact lt_max_of_lt_right (by norm_num)
  exact ⟨hkey, c10_compute_segs_agree ⟨1, 100⟩ ⟨1, 50⟩ ⟨0, 0⟩ 0 ⟨0, 0⟩ 0 [] hkey⟩

/-- C7 witness: a coincident-position request with differing headings
fails with -1 and leaves the list unchanged. -/
theorem c7_failure_no_mutation_witness :
    (compute_segs ⟨1, 1⟩ ⟨0, 0⟩ 0 ⟨0, 0⟩ 90 []).1 = -1 ∧
    (compute_segs ⟨1, 1⟩ ⟨0, 0⟩ 0 ⟨0, 0⟩ 90 []).2 = [] := by
  have h : (compute_segs ⟨1, 1⟩ ⟨0, 0⟩ 0 ⟨0, 0⟩ 90 []).1 = -1 := by
    unfold compute_segs
    rw [if_pos rfl]
    norm_num
  exact ⟨h, c7_failure_no_mutation ⟨1, 1⟩ ⟨0, 0⟩ 0 ⟨0, 0⟩ 90 [] h⟩

/-! ## Speed-planning bounds (C8) -/

lemma straight_calc_bounds (rmng_d next_spd : ℝ) (bw : Bool) (cruise : ℝ)
    (hc : cruise = if bw then NORMAL_SPEED else FAST_SPEED)
    (h : next_spd ≤ cruise) :
    straight_calc rmng_d next_spd bw ≤ cruise ∧
    (0 ≤ next_spd → 0 ≤ straight_calc rmng_d next_spd bw) := by
  have hcpos : 0 < cruise := by
    rw [hc]; cases bw <;> norm_num [NORMAL_SPEED, FAST_SPEED]
  rw [straight_calc_eq, ← hc]
  by_cases hd : 0 ≤ next_spd ^ 2 + 2 * NORMAL_DECEL * rmng_d
  · rw [if_pos hd]
    exact ⟨min_le_right _ _, fun _ => le_min (Real.sqrt_nonneg _) hcpos.le⟩
  · rw [if_neg hd]
    exact ⟨h, fun h0 => h0⟩

lemma turn_calc_bounds (rhdg radius mav spd cruise : ℝ)
    (hradius : 0 < radius) (hcpos : 0 < cruise)
    (hle : spd ≤ cruise) (hnn : 0 ≤ mav → 0 ≤ spd) :
    turn_calc rhdg radius mav spd ≤ cruise ∧
    (0 ≤ mav → 0 ≤ turn_calc rhdg radius mav spd) := by
  simp only [turn_calc]
  by_cases hspd : spd = 0
  · subst hspd
    rw [zero_mul]
    exact ⟨hcpos.le, fun _ => le_refl 0⟩
  · by_cases hr : rhdg = 0
    · subst hr
      rw [zero_div, div_zero]
      have hmin : min ((0:ℝ)) 1 = 0 := min_eq_left (by norm_num)
      rw [hmin, mul_zero]
      exact ⟨hcpos.le, fun _ => le_refl 0⟩
    · have hang : rhdg / (2 * Real.pi * radius * (rhdg / 360) / spd) =
          180 * spd / (Real.pi * radius) := by
        field_simp
        ring
      rw [hang]
      set A := 180 * spd / (Real.pi * radius) with hA
      rcases lt_trichotomy spd 0 with hneg | hzero | hpos
      · have hAneg : A < 0 := div_neg_of_neg_of_pos (by linarith) (by positivity)
        have hmavneg : ¬ 0 ≤ mav := fun hm => absurd (hnn hm) (not_le.mpr hneg)
        have hmpos : 0 < mav / A := div_pos_of_neg_of_neg (not_le.mp hmavneg) hAneg
        have hmm : 0 < min (mav / A) 1 := lt_min hmpos one_pos
        refine ⟨?_, fun hm => absurd hm hmavneg⟩
        exact (mul_neg_of_neg_of_pos hneg hmm).le.trans hcpos.le
      · exact absurd hzero hspd
      · have hApos : 0 < A := div_pos (by linarith) (by positivity)
        constructor
        · calc spd * min (mav / A) 1 ≤ spd * 1 :=
              mul_le_mul_of_nonneg_left (min_le_right _ _) hpos.le
            _ = spd := mul_one spd
            _ ≤ cruise := hle
        · intro hm
          exact mul_nonneg hpos.le (le_min (div_nonneg hm hApos.le) one_pos.le)

/-- Invariant of the recursive speed planner: on a chain whose turn
segments all have positive radius, the planned entry speed never exceeds
the direction's cruise speed, and is nonnegative whenever the angular
velocity bound is. -/
lemma next_seg_speed_bounds : ∀ (rest : List Seg) (bw : Bool) (mav : ℝ),
    (∀ s ∈ rest, s.type = SegType.turn → 0 < s.turn_r) →
    next_seg_speed rest bw mav ≤ (if bw then NORMAL_SPEED else FAST_SPEED) ∧
    (0 ≤ mav → 0 ≤ next_seg_speed rest bw mav) := by
  intro rest
  induction rest with
  | nil =>
    intro bw mav hr
    constructor
    · cases bw <;> norm_num [next_seg_speed, CRAWL_SPEED, NORMAL_SPEED, FAST_SPEED]
    · intro
      norm_num [next_seg_speed, CRAWL_SPEED]
  | cons next rest ih =>
    intro bw mav hr
    have hrtail : ∀ s ∈ rest, s.type = SegType.turn → 0 < s.turn_r :=
      fun s hs => hr s (List.mem_cons_of_mem _ hs)
    have ihn := ih next.backward mav hrtail
    simp only [next_seg_speed]
    by_cases hbw : next.backward = bw
    · rw [if_pos hbw, ← hbw]
      by_cases hst : next.type = SegType.straight
      · rw [if_pos hst]
        have hsb := straight_calc_bounds next.len
          (next_seg_speed rest next.backward mav) next.backward _ rfl ihn.1
        exact ⟨hsb.1, fun hm => hsb.2 (ihn.2 hm)⟩
      · rw [if_neg hst]
        have hturn : next.type = SegType.turn := by
          cases h : next.type
          · exact absurd h hst
          · rfl
        have hradius : 0 < next.turn_r := hr next (List.mem_cons_self _ _) hturn
        have hs := straight_calc_bounds
          (2 * Real.pi * next.turn_r * (rel_hdg next.start_hdg next.end_hdg / 360)) _
          next.backward _ rfl ihn.1
        have hcpos : (0:ℝ) < if next.backward then NORMAL_SPEED else FAST_SPEED := by
          cases next.backward <;> norm_num [NORMAL_SPEED, FAST_SPEED]
        exact turn_calc_bounds _ next.turn_r mav _ _ hradius hcpos hs.1
          (fun hm => hs.2 (ihn.2 hm))
    · rw [if_neg hbw]
      constructor
      · cases bw <;> norm_num [CRAWL_SPEED, NORMAL_SPEED, FAST_SPEED]
      · intro
        norm_num [CRAWL_SPEED]

/-- C8 (amended): for every remaining distance, direction flag, angular
velocity bound and segment list all of whose turn segments have positive
radius, `straight_run_speed` is at most the direction's cruise speed —
FAST_SPEED forward, NORMAL_SPEED backward — including the no-real-root
fallback to the next segment's entry speed. -/
theorem c8_straight_speed_cruise_bound (rmng_d : ℝ) (bw : Bool) (mav : ℝ)
    (rest : List Seg) (hr : ∀ s ∈ rest, s.type = SegType.turn → 0 < s.turn_r) :
    straight_run_speed rmng_d bw mav rest ≤
      if bw then NORMAL_SPEED else FAST_SPEED := by
  have hb := next_seg_speed_bounds rest bw mav hr
  exact (straight_calc_bounds rmng_d _ bw _ rfl hb.1).1

/-- C8 witness: forward travel with an empty remaining chain. -/
theorem c8_straight_speed_cruise_bound_witness :
    (∀ s ∈ ([] : List Seg), s.type = SegType.turn → 0 < s.turn_r) ∧
    straight_run_speed 7 false 3 [] ≤ if false then NORMAL_SPEED else FAST_SPEED :=
  ⟨by simp, c8_straight_speed_cruise_bound 7 false 3 [] (by simp)⟩

/-! ## C8 counterexample: a chain with a negative-radius turn breaks the
cruise-speed bound. -/

lemma segtype_turn_ne_straight : (SegType.turn = SegType.straight) = False :=
  eq_false (by decide)

lemma rel_hdg_90_0 : rel_hdg (90 : ℝ) 0 = -90 := by
  norm_num [rel_hdg]

lemma arc_T3 : 2 * Real.pi * (-(180 / Real.pi)) * ((-90 : ℝ) / 360) = 90 := by
  field_simp
  ring

lemma arc_T1 : 2 * Real.pi * (18000 / Real.pi) * ((-90 : ℝ) / 360) = -9000 := by
  field_simp
  ring

lemma turn_calc_T3 : turn_calc (-90) (-(180 / Real.pi)) 3 4 = -3 := by
  simp only [turn_calc]
  rw [arc_T3]
  norm_num [min_def]

lemma turn_calc_T1 : turn_calc (-90) (18000 / Real.pi) 3 (-3) = 300 := by
  simp only [turn_calc]
  rw [arc_T1]
  norm_num [min_def]

lemma straight_calc_S2 : straight_calc (-100) (-3) false = -3 := by
  rw [straight_calc_eq]
  rw [if_neg (by norm_num [NORMAL_DECEL])]

lemma straight_calc_T1arc : straight_calc (-9000) (-3) false = -3 := by
  rw [straight_calc_eq]
  rw [if_neg (by norm_num [NORMAL_DECEL])]

lemma straight_calc_head : straight_calc (-300000) 300 false = 300 := by
  rw [straight_calc_eq]
  rw [if_neg (by norm_num [NORMAL_DECEL])]

lemma c8_cex_value : straight_run_speed (-300000) false 3
    [⟨.turn, ⟨0,0⟩, 90, ⟨0,0⟩, 0, false, 0, 18000 / Real.pi, false⟩,
     ⟨.straight, ⟨0,0⟩, 0, ⟨0,0⟩, 0, false, -100, 0, false⟩,
     ⟨.turn, ⟨0,0⟩, 90, ⟨0,0⟩, 0, false, 0, -(180 / Real.pi), false⟩] = 300 := by
  unfold straight_run_speed
  simp only [next_seg_speed, segtype_turn_ne_straight, eq_self_iff_true, if_true,
    if_false]
  rw [rel_hdg_90_0, arc_T3, arc_T1]
  rw [straight_calc_90, turn_calc_T3, straight_calc_S2, straight_calc_T1arc,
    turn_calc_T1, straight_calc_head]

/-- C8 counterexample: on a (well-typed but geometrically meaningless)
chain containing a negative-radius turn, `straight_run_speed` returns
300 m/s — far above the 4 m/s forward cruise speed, so the claim's bound
fails for arbitrary segment lists. -/
theorem c8_cex_speed_exceeds_cruise :
    straight_run_speed (-300000) false 3
      [⟨.turn, ⟨0,0⟩, 90, ⟨0,0⟩, 0, false, 0, 18000 / Real.pi, false⟩,
       ⟨.straight, ⟨0,0⟩, 0, ⟨0,0⟩, 0, false, -100, 0, false⟩,
       ⟨.turn, ⟨0,0⟩, 90, ⟨0,0⟩, 0, false, 0, -(180 / Real.pi), false⟩] = 300 ∧
    ¬ (straight_run_speed (-300000) false 3
      [⟨.turn, ⟨0,0⟩, 90, ⟨0,0⟩, 0, false, 0, 18000 / Real.pi, false⟩,
       ⟨.straight, ⟨0,0⟩, 0, ⟨0,0⟩, 0, false, -100, 0, false⟩,
       ⟨.turn, ⟨0,0⟩, 90, ⟨0,0⟩, 0, false, 0, -(180 / Real.pi), false⟩] ≤
        if false then NORMAL_SPEED else FAST_SPEED) := by
  refine ⟨c8_cex_value, ?_⟩
  rw [c8_cex_value]
  norm_num [FAST_SPEED]

/-! ## Segment dispatch (C9) -/

lemma drive_segs_pop (pos : VehiclePos) (veh : Vehicle) (seg : Seg) (rest : List Seg)
    (mav lmh dt : ℝ) (h : seg_complete pos seg) :
    drive_segs pos veh (seg :: rest) mav lmh dt =
      ⟨false, rest, none, none, lmh⟩ := by
  unfold seg_complete at h
  unfold drive_segs
  dsimp only
  by_cases hst : seg.type = SegType.straight
  · rw [if_pos hst] at h
    rw [if_pos hst]
    rw [if_pos h]
  · rw [if_neg hst] at h
    rw [if_neg hst]
    rw [if_pos h]

lemma drive_segs_no_pop (pos : VehiclePos) (veh : Vehicle) (seg : Seg) (rest : List Seg)
    (mav lmh dt : ℝ) (h : ¬ seg_complete pos seg) :
    (drive_segs pos veh (seg :: rest) mav lmh dt).cont = true ∧
    (drive_segs pos veh (seg :: rest) mav lmh dt).segs = seg :: rest ∧
    (drive_segs pos veh (seg :: rest) mav lmh dt).steer.isNone = false ∧
    (drive_segs pos veh (seg :: rest) mav lmh dt).speed.isNone = false := by
  unfold seg_complete at h
  unfold drive_segs
  dsimp only
  by_cases hst : seg.type = SegType.straight
  · rw [if_pos hst] at h
    rw [if_pos hst]
    rw [if_neg h]
    exact ⟨rfl, rfl, rfl, rfl⟩
  · rw [if_neg hst] at h
    rw [if_neg hst]
    rw [if_neg h]
    exact ⟨rfl, rfl, rfl, rfl⟩

/-- C9 (amended): one `drive_segs` tick on a non-empty list pops exactly
the head — returning false with both outputs unwritten — precisely when
the head's completion condition holds (straight: distance from the
segment's start is at least its length; turn: bearing from the end
position within 90° of the direction-of-travel end heading, i.e. the
stored end heading reversed by 180° for a backward segment); otherwise it
returns true with the list untouched, and the list never grows. -/
theorem c9_single_pop_dispatch (pos : VehiclePos) (veh : Vehicle) (seg : Seg)
    (rest : List Seg) (mav lmh dt : ℝ) :
    ((drive_segs pos veh (seg :: rest) mav lmh dt).segs =
        if seg_complete pos seg then rest else seg :: rest) ∧
    ((drive_segs pos veh (seg :: rest) mav lmh dt).cont =
        if seg_complete pos seg then false else true) ∧
    ((drive_segs pos veh (seg :: rest) mav lmh dt).steer.isNone =
        if seg_complete pos seg then true else false) ∧
    ((drive_segs pos veh (seg :: rest) mav lmh dt).speed.isNone =
        if seg_complete pos seg then true else false) ∧
    (drive_segs pos veh (seg :: rest) mav lmh dt).segs.length ≤ (seg :: rest).length := by
  by_cases h : seg_complete pos seg
  · rw [drive_segs_pop pos veh seg rest mav lmh dt h]
    simp only [if_pos h]
    simp
  · have hn := drive_segs_no_pop pos veh seg rest mav lmh dt h
    simp only [if_neg h]
    exact ⟨hn.2.1, hn.1, hn.2.2.1, hn.2.2.2, by rw [hn.2.1]⟩

lemma normalize_hdg_180 : normalize_hdg (0 + 180 : ℝ) = 180 := by
  unfold normalize_hdg
  rw [show (0:ℝ) + 180 = 180 by norm_num]
  rw [show ⌊(180:ℝ) / 360⌋ = 0 from Int.floor_eq_zero_iff.mpr (by constructor <;> norm_num)]
  norm_num

/-- C9 counterexample: a backward turn segment whose end heading points
straight at the vehicle.  The claim's completion condition (bearing within
90° of the stored end heading) holds, yet `drive_segs` does not pop the
segment and returns true, because the code measures the bearing against
the 180°-reversed end heading for backward segments. -/
theorem c9_cex_backward_turn_not_popped :
    |rel_hdg (Seg.mk .turn ⟨0,0⟩ 0 ⟨0,0⟩ 0 true 0 5 false).end_hdg
        (dir2hdg (vect2_sub ⟨0,5⟩
          (Seg.mk .turn ⟨0,0⟩ 0 ⟨0,0⟩ 0 true 0 5 false).end_pos))| ≤ 90 ∧
    (drive_segs ⟨⟨0,5⟩, 0, 0⟩ ⟨1,1⟩ [Seg.mk .turn ⟨0,0⟩ 0 ⟨0,0⟩ 0 true 0 5 false]
      3 0 1).cont = true ∧
    (drive_segs ⟨⟨0,5⟩, 0, 0⟩ ⟨1,1⟩ [Seg.mk .turn ⟨0,0⟩ 0 ⟨0,0⟩ 0 true 0 5 false]
      3 0 1).segs = [Seg.mk .turn ⟨0,0⟩ 0 ⟨0,0⟩ 0 true 0 5 false] := by
  have hdir : dir2hdg (vect2_sub ⟨0,5⟩ ⟨0,0⟩) = 0 := by
    rw [show vect2_sub ⟨0,5⟩ ⟨0,0⟩ = (⟨0,5⟩ : Vect2) by norm_num [vect2_sub]]
    exact dir2hdg_north 5 (by norm_num)
  have hnc : ¬ seg_complete ⟨⟨0,5⟩, 0, 0⟩
      (Seg.mk .turn ⟨0,0⟩ 0 ⟨0,0⟩ 0 true 0 5 false) := by
    unfold seg_complete
    rw [if_neg (by decide : ¬ (Seg.mk .turn ⟨0,0⟩ 0 ⟨0,0⟩ 0 true 0 5 false).type =
      SegType.straight)]
    dsimp only
    rw [normalize_hdg_180, hdir]
    norm_num [rel_hdg]
  have hn := drive_segs_no_pop ⟨⟨0,5⟩, 0, 0⟩ ⟨1,1⟩
    (Seg.mk .turn ⟨0,0⟩ 0 ⟨0,0⟩ 0 true 0 5 false) [] 3 0 1 hnc
  refine ⟨?_, hn.1, hn.2.1⟩
  dsimp only
  rw [hdir]
  norm_num [rel_hdg]

end
